import Mathlib

/-!
# Verification of the streaming pipeline of `03_events_streams/streams-edge.js`

The program wires three stream stages:
* `DataSource` (a `Readable`): backing list `['a','b','c','d','e']`, cursor
  `index`; `_read` pushes `{ data: this.data[this.index], timestamp: Date.now() }`
  and increments the cursor, or pushes `null` (end of sequence) when the cursor
  has reached the end.
* `UppercaseTransform` (a `Transform`): `_transform` upper-cases `chunk.data`,
  stamps `chunk.transformedAt = Date.now()`, pushes the chunk and calls
  `callback()`; if the mapping throws (payload without `toUpperCase`), it calls
  `callback(error)`.
* `DataSink` (a `Writable`): `_write` logs the chunk and always succeeds.

JavaScript strings are modelled as lists of UTF-16 code units (`List Nat`);
a payload is either a string or some other JavaScript value (modelled by
`Val.vnum`, on which `toUpperCase` raises a `TypeError`).  The host clock
(`Date.now()`) is modelled as a function `clock : Nat → Nat` from a call
counter to a timestamp.
-/

/-- A JavaScript value flowing through the pipeline: a string (as UTF-16 code
units) or a non-string value, which has no `toUpperCase` method. -/
inductive Val where
  | vstr : List Nat → Val
  | vnum : Int → Val
  deriving DecidableEq, Repr

/-- A JavaScript runtime error; `toUpperCase` on a non-string raises a
`TypeError`. -/
inductive JSError where
  | typeError : JSError
  deriving DecidableEq, Repr

/-- The ASCII upper-case mapping on a single UTF-16 code unit, as performed by
`String.prototype.toUpperCase` on the code points this program uses. -/
def upperCodeUnit (u : Nat) : Nat :=
  if 97 ≤ u ∧ u ≤ 122 then u - 32 else u

/-- `v.toUpperCase()`: succeeds with the upper-cased string when `v` is a
string, raises a `TypeError` otherwise (line 53 of `streams-edge.js` inside the
`try`). -/
def Val.toUpperCase : Val → Except JSError Val
  | .vstr us => .ok (.vstr (us.map upperCodeUnit))
  | .vnum _ => .error .typeError

/-- Is this value a JavaScript string? -/
def Val.isStringVal : Val → Bool
  | .vstr _ => true
  | .vnum _ => false

/-- A record (chunk) of the pipeline.  `DataSource._read` creates
`{ data, timestamp }` (line 27); `UppercaseTransform._transform` later adds the
field `transformedAt` (line 54), absent (`none`) on a fresh source chunk. -/
structure Chunk where
  data : Val
  timestamp : Nat
  transformedAt : Option Nat
  deriving DecidableEq, Repr

/-- The state of `DataSource`: the backing list and the cursor, lines 15-16 of
`streams-edge.js` (`this.data = ['a','b','c','d','e']; this.index = 0`). -/
structure DataSource where
  data : List Val
  index : Nat
  deriving DecidableEq, Repr

/-- The `DataSource` the program constructs: backing list
`['a','b','c','d','e']` (code units 97..101), cursor `0`. -/
def DataSource.init : DataSource :=
  { data := [.vstr [97], .vstr [98], .vstr [99], .vstr [100], .vstr [101]]
    index := 0 }

/-- `DataSource._read` (lines 20-34): when the cursor is past the end, push
`null` (`none`, end of sequence); otherwise push the chunk
`{ data: this.data[this.index], timestamp: Date.now() }` and increment the
cursor. -/
def DataSource.read (s : DataSource) (now : Nat) : Option (Chunk × DataSource) :=
  if h : s.index < s.data.length then
    some ({ data := s.data.get ⟨s.index, h⟩, timestamp := now, transformedAt := none },
          { s with index := s.index + 1 })
  else
    none

/-- `UppercaseTransform._transform` (lines 49-66): upper-case `chunk.data`,
stamp `chunk.transformedAt = Date.now()` and push the chunk; if `toUpperCase`
throws (non-string payload), call `callback(error)` — the chunk is not pushed
and the error propagates. -/
def UppercaseTransform.transform (c : Chunk) (now : Nat) : Except JSError Chunk :=
  match c.data.toUpperCase with
  | .ok d => .ok { c with data := d, transformedAt := some now }
  | .error e => .error e

/-- `DataSink._write` (lines 78-82): log the chunk to the console (modelled as
appending it to the list of consumed chunks) and call `callback()` — the sink
always succeeds. -/
def DataSink.write (consumed : List Chunk) (c : Chunk) : List Chunk :=
  consumed ++ [c]

/-- An observable event of a pipeline run: a record handed off by a stage, the
end-of-sequence signal, or a transform failure. -/
inductive Event where
  | sourceProduce : Chunk → Event
  | endOfSequence : Event
  | transformOk : Chunk → Chunk → Event
  | transformErr : Chunk → JSError → Event
  | sinkConsume : Chunk → Event
  deriving DecidableEq, Repr

/-- The final state of a pipeline run: `completed` (the `pipeline` promise
resolved) or `failed` with the original stage error (the promise rejected). -/
inductive RunResult where
  | completed : RunResult
  | failed : JSError → RunResult
  deriving DecidableEq, Repr

theorem DataSource.read_some {s s' : DataSource} {t : Nat} {c : Chunk}
    (h : DataSource.read s t = some (c, s')) :
    s.index < s.data.length ∧ s'.data = s.data ∧ s'.index = s.index + 1 := by
  unfold DataSource.read at h
  split at h
  · simp only [Option.some.injEq, Prod.mk.injEq] at h
    refine ⟨by assumption, ?_, ?_⟩ <;> simp [← h.2]
  · exact absurd h (by simp)

/-- Modelled from the spec: the scheduling of the external stream engine
(`pipeline` from `stream/promises`, wired in `run`, lines 89-101) is not code
of this repository; the spec (§4.4) fixes it as a strict one-record-in-flight
pull loop: (1) call `Source.produce` — on end-of-sequence finish successfully;
(2) on a record call `Transform.transform` — on error abort without calling the
sink; (3) call `Sink.consume` (which here always succeeds); (4) repeat.
`clock` supplies the host timestamps, `k` is the clock call counter.  The run
is returned as its trace of events together with the final result. -/
def runLoop (s : DataSource) (clock : Nat → Nat) (k : Nat) : List Event × RunResult :=
  match h : DataSource.read s (clock k) with
  | none => ([Event.endOfSequence], RunResult.completed)
  | some (c, s') =>
    match UppercaseTransform.transform c (clock (k + 1)) with
    | .error e => ([Event.sourceProduce c, Event.transformErr c e], RunResult.failed e)
    | .ok c' =>
      let r := runLoop s' clock (k + 2)
      (Event.sourceProduce c :: Event.transformOk c c' :: Event.sinkConsume c' :: r.1, r.2)
termination_by s.data.length - s.index
decreasing_by
  have h3 := DataSource.read_some h
  rw [h3.2.1, h3.2.2]
  omega

/-- The whole program's run (`run()`, lines 89-103): the pipeline applied to a
freshly constructed `DataSource`. -/
def run (clock : Nat → Nat) : List Event × RunResult :=
  runLoop DataSource.init clock 0

/-- The chunk `DataSource._read` creates for payload `v` at time `t`
(line 27). -/
def srcChunk (v : Val) (t : Nat) : Chunk :=
  { data := v, timestamp := t, transformedAt := none }

/-- The payload part of a transform outcome, used to state that the mapping
depends only on the input payload. -/
def resultData : Except JSError Chunk → Except JSError Val
  | .ok c => .ok c.data
  | .error e => .error e

/-- The same pull loop expressed structurally over the list of payloads the
source has not yet produced; `runLoop_eq_pipeTrace` proves it equal to
`runLoop`. -/
def pipeTrace : List Val → (Nat → Nat) → Nat → List Event × RunResult
  | [], _, _ => ([Event.endOfSequence], RunResult.completed)
  | v :: vs, clock, k =>
    match UppercaseTransform.transform (srcChunk v (clock k)) (clock (k + 1)) with
    | .error e =>
      ([Event.sourceProduce (srcChunk v (clock k)),
        Event.transformErr (srcChunk v (clock k)) e], RunResult.failed e)
    | .ok c' =>
      (Event.sourceProduce (srcChunk v (clock k)) ::
         Event.transformOk (srcChunk v (clock k)) c' ::
         Event.sinkConsume c' :: (pipeTrace vs clock (k + 2)).1,
       (pipeTrace vs clock (k + 2)).2)

/-- Does this event record a `Source.produce` hand-off? -/
def Event.isProduce : Event → Bool
  | .sourceProduce _ => true
  | _ => false

/-- Does this event record a `Sink.consume` call? -/
def Event.isConsume : Event → Bool
  | .sinkConsume _ => true
  | _ => false

/-- Does this event record a transform failure? -/
def Event.isTransformErr : Event → Bool
  | .transformErr _ _ => true
  | _ => false

/-- Number of `Source.produce` hand-offs in a trace. -/
def produceCount (tr : List Event) : Nat := tr.countP Event.isProduce

/-- Number of `Sink.consume` calls in a trace. -/
def consumeCount (tr : List Event) : Nat := tr.countP Event.isConsume

/-- The chunks the source handed off, in order. -/
def producedChunks (tr : List Event) : List Chunk :=
  tr.filterMap fun e => match e with | .sourceProduce c => some c | _ => none

/-- The chunks the sink consumed, in order. -/
def consumedChunks (tr : List Event) : List Chunk :=
  tr.filterMap fun e => match e with | .sinkConsume c => some c | _ => none

/-- A well-formed pipeline trace: zero or more complete record journeys
(produce, transform, consume of the very chunk the transform pushed), ended
either by the end-of-sequence signal or by a produce followed by a transform
failure on that same chunk. -/
inductive BlockTrace : List Event → Prop where
  | eos : BlockTrace [Event.endOfSequence]
  | err (c : Chunk) (e : JSError) (t : Nat)
      (he : UppercaseTransform.transform c t = Except.error e) :
      BlockTrace [Event.sourceProduce c, Event.transformErr c e]
  | step (c c' : Chunk) (t : Nat) (tr : List Event)
      (hok : UppercaseTransform.transform c t = Except.ok c')
      (htr : BlockTrace tr) :
      BlockTrace (Event.sourceProduce c :: Event.transformOk c c' ::
        Event.sinkConsume c' :: tr)

/-- Reachability of `DataSource` states: the initial state, and every state
obtained from a reachable one by a successful `_read`. -/
inductive DataSource.Reachable : DataSource → DataSource → Prop where
  | refl (s : DataSource) : DataSource.Reachable s s
  | step (s s' s'' : DataSource) (t : Nat) (c : Chunk)
      (h : DataSource.Reachable s s')
      (hr : DataSource.read s' t = some (c, s'')) :
      DataSource.Reachable s s''

/-- One primitive operation of a stream-hook body, used to state where the
record writes sit relative to the hand-off (`push`). -/
inductive TOp where
  | mkChunk
  | logLine
  | writeData
  | writeTransformedAt
  | pushChunk
  | callbackOk
  | incIndex
  | awaitDelay
  deriving DecidableEq, Repr

/-- The operations of `UppercaseTransform._transform` in source order
(lines 51, 53, 54, 55, 58, 61). -/
def transformBody : List TOp :=
  [.logLine, .writeData, .writeTransformedAt, .logLine, .pushChunk, .callbackOk]

/-- The operations of the record-producing branch of `DataSource._read` in
source order (lines 27, 28, 29, 30, 33). -/
def readBody : List TOp :=
  [.mkChunk, .logLine, .pushChunk, .incIndex, .awaitDelay]

/-- The operations of `DataSink._write` in source order (lines 79, 81). -/
def writeBody : List TOp :=
  [.logLine, .callbackOk]

/-- Does this operation write (create or mutate) the record? -/
def TOp.isChunkWrite : TOp → Bool
  | .mkChunk => true
  | .writeData => true
  | .writeTransformedAt => true
  | _ => false

/-- `true` iff no operation after the first `pushChunk` (the hand-off to the
next stage) writes the record. -/
def noWriteAfterForward (ops : List TOp) : Bool :=
  (((ops.dropWhile fun op => !(op == TOp.pushChunk))).drop 1).all
    fun op => !(op.isChunkWrite)

example : DataSource.read DataSource.init 7 =
    some ({ data := .vstr [97], timestamp := 7, transformedAt := none },
          { data := DataSource.init.data, index := 1 }) := by decide

example : UppercaseTransform.transform
    { data := .vstr [97], timestamp := 7, transformedAt := none } 9 =
    .ok { data := .vstr [65], timestamp := 7, transformedAt := some 9 } := rfl

example : pipeTrace [.vstr [97]] (fun n => n) 0 =
    ([Event.sourceProduce { data := .vstr [97], timestamp := 0, transformedAt := none },
      Event.transformOk { data := .vstr [97], timestamp := 0, transformedAt := none }
        { data := .vstr [65], timestamp := 0, transformedAt := some 1 },
      Event.sinkConsume { data := .vstr [65], timestamp := 0, transformedAt := some 1 },
      Event.endOfSequence], RunResult.completed) := by decide

theorem transform_ok_of_string {c : Chunk} {us : List Nat} (h : c.data = Val.vstr us)
    (t : Nat) :
    UppercaseTransform.transform c t =
      Except.ok { c with data := Val.vstr (us.map upperCodeUnit), transformedAt := some t } := by
  unfold UppercaseTransform.transform
  rw [h]
  rfl

theorem transform_err_of_num {c : Chunk} {z : Int} (h : c.data = Val.vnum z) (t : Nat) :
    UppercaseTransform.transform c t = Except.error JSError.typeError := by
  unfold UppercaseTransform.transform
  rw [h]
  rfl

theorem transform_ok_fields {c c' : Chunk} {t : Nat}
    (h : UppercaseTransform.transform c t = Except.ok c') :
    c'.timestamp = c.timestamp ∧ c'.transformedAt = some t ∧
    ∃ us, c.data = Val.vstr us ∧ c'.data = Val.vstr (us.map upperCodeUnit) := by
  cases hd : c.data with
  | vstr us =>
    rw [transform_ok_of_string hd t] at h
    simp only [Except.ok.injEq] at h
    subst h
    exact ⟨rfl, rfl, us, rfl, rfl⟩
  | vnum z =>
    rw [transform_err_of_num hd t] at h
    exact absurd h (by simp)

theorem pipeTrace_nil (clock : Nat → Nat) (k : Nat) :
    pipeTrace [] clock k = ([Event.endOfSequence], RunResult.completed) := rfl

theorem pipeTrace_cons_err {v : Val} {clock : Nat → Nat} {k : Nat} {e : JSError}
    (htr : UppercaseTransform.transform (srcChunk v (clock k)) (clock (k + 1)) =
      Except.error e) (vs : List Val) :
    pipeTrace (v :: vs) clock k =
      ([Event.sourceProduce (srcChunk v (clock k)),
        Event.transformErr (srcChunk v (clock k)) e], RunResult.failed e) := by
  simp only [pipeTrace, htr]

theorem pipeTrace_cons_ok {v : Val} {clock : Nat → Nat} {k : Nat} {c' : Chunk}
    (htr : UppercaseTransform.transform (srcChunk v (clock k)) (clock (k + 1)) =
      Except.ok c') (vs : List Val) :
    pipeTrace (v :: vs) clock k =
      (Event.sourceProduce (srcChunk v (clock k)) ::
         Event.transformOk (srcChunk v (clock k)) c' ::
         Event.sinkConsume c' :: (pipeTrace vs clock (k + 2)).1,
       (pipeTrace vs clock (k + 2)).2) := by
  simp only [pipeTrace, htr]

theorem runLoop_eq_pipeTrace (s : DataSource) (clock : Nat → Nat) (k : Nat) :
    runLoop s clock k = pipeTrace (s.data.drop s.index) clock k := by
  have H : ∀ n (s : DataSource) (clock : Nat → Nat) (k : Nat),
      s.data.length - s.index = n →
      runLoop s clock k = pipeTrace (s.data.drop s.index) clock k := by
    intro n
    induction n using Nat.strong_induction_on with
    | _ n ih =>
      intro s clock k hn
      unfold runLoop
      split
      next heq =>
        have hge : s.data.length ≤ s.index := by
          by_contra hlt
          push_neg at hlt
          unfold DataSource.read at heq
          rw [dif_pos hlt] at heq
          exact absurd heq (by simp)
        rw [List.drop_eq_nil_iff.mpr hge]
        rfl
      next c s' heq =>
        obtain ⟨hlt, hdata, hidx⟩ := DataSource.read_some heq
        have hc : c = srcChunk (s.data.get ⟨s.index, hlt⟩) (clock k) := by
          unfold DataSource.read at heq
          rw [dif_pos hlt] at heq
          simp only [Option.some.injEq, Prod.mk.injEq] at heq
          rw [← heq.1]
          rfl
        subst hc
        have hdrop : s.data.drop s.index =
            s.data.get ⟨s.index, hlt⟩ :: s.data.drop (s.index + 1) := by
          simpa using List.drop_eq_getElem_cons hlt
        have hrec := ih (s'.data.length - s'.index)
          (by rw [hdata, hidx]; omega) s' clock (k + 2) rfl
        rw [hdata, hidx] at hrec
        rw [hdrop]
        cases htr : UppercaseTransform.transform
            (srcChunk (s.data.get ⟨s.index, hlt⟩) (clock k)) (clock (k + 1)) with
        | error e =>
          rw [pipeTrace_cons_err htr]
        | ok c' =>
          rw [pipeTrace_cons_ok htr]
          simp only [hrec]
  exact H _ s clock k rfl

theorem foldl_write_eq (cs : List Chunk) : List.foldl DataSink.write [] cs = cs := by
  have H : ∀ (cs acc : List Chunk), List.foldl DataSink.write acc cs = acc ++ cs := by
    intro cs
    induction cs with
    | nil => intro acc; simp
    | cons c cs ih => intro acc; simp [DataSink.write, ih]
  simpa using H cs []

theorem upperCodeUnit_idem (u : Nat) :
    upperCodeUnit (upperCodeUnit u) = upperCodeUnit u := by
  unfold upperCodeUnit
  by_cases h : 97 ≤ u ∧ u ≤ 122
  · rw [if_pos h, if_neg (by omega)]
  · rw [if_neg h, if_neg h]

theorem pipeTrace_blockTrace (l : List Val) (clock : Nat → Nat) (k : Nat) :
    BlockTrace (pipeTrace l clock k).1 := by
  induction l generalizing k with
  | nil => exact BlockTrace.eos
  | cons v vs ih =>
    cases htr : UppercaseTransform.transform (srcChunk v (clock k)) (clock (k + 1)) with
    | error e =>
      rw [pipeTrace_cons_err htr]
      exact BlockTrace.err _ _ _ htr
    | ok c' =>
      rw [pipeTrace_cons_ok htr]
      exact BlockTrace.step _ _ _ _ htr (ih (k + 2))

theorem counts_take_pipeTrace (l : List Val) (clock : Nat → Nat) :
    ∀ (k n : Nat),
    consumeCount ((pipeTrace l clock k).1.take n) ≤
      produceCount ((pipeTrace l clock k).1.take n) ∧
    produceCount ((pipeTrace l clock k).1.take n) ≤
      consumeCount ((pipeTrace l clock k).1.take n) + 1 := by
  induction l with
  | nil =>
    intro k n
    rw [pipeTrace_nil]
    match n with
    | 0 => simp [produceCount, consumeCount]
    | m + 1 =>
      simp [produceCount, consumeCount, List.countP_cons, Event.isProduce, Event.isConsume]
  | cons v vs ih =>
    intro k n
    cases htr : UppercaseTransform.transform (srcChunk v (clock k)) (clock (k + 1)) with
    | error e =>
      rw [pipeTrace_cons_err htr]
      match n with
      | 0 => simp [produceCount, consumeCount]
      | 1 =>
        simp [produceCount, consumeCount, List.countP_cons, Event.isProduce, Event.isConsume]
      | m + 2 =>
        simp [produceCount, consumeCount, List.countP_cons, Event.isProduce, Event.isConsume]
    | ok c' =>
      rw [pipeTrace_cons_ok htr]
      match n with
      | 0 => simp [produceCount, consumeCount]
      | 1 =>
        simp [produceCount, consumeCount, List.countP_cons, Event.isProduce, Event.isConsume]
      | 2 =>
        simp [produceCount, consumeCount, List.countP_cons, Event.isProduce, Event.isConsume]
      | m + 3 =>
        have h := ih (k + 2) m
        simp only [List.take_succ_cons, produceCount, consumeCount, List.countP_cons,
          Event.isProduce, Event.isConsume] at h ⊢
        simp only [if_true, if_false, Bool.false_eq_true] at h ⊢
        omega

theorem pipeTrace_fail_fast (l : List Val) (clock : Nat → Nat) :
    ∀ (k : Nat) (l₁ l₂ : List Event) (c : Chunk) (e : JSError),
    (pipeTrace l clock k).1 = l₁ ++ Event.transformErr c e :: l₂ →
    l₂ = [] ∧ (pipeTrace l clock k).2 = RunResult.failed e := by
  induction l with
  | nil =>
    intro k l₁ l₂ c e h
    rw [pipeTrace_nil] at h
    exfalso
    cases l₁ with
    | nil => simp at h
    | cons a l₁ => simp at h
  | cons v vs ih =>
    intro k l₁ l₂ c e h
    cases htr : UppercaseTransform.transform (srcChunk v (clock k)) (clock (k + 1)) with
    | error e' =>
      rw [pipeTrace_cons_err htr] at h ⊢
      cases l₁ with
      | nil =>
        rw [List.nil_append] at h
        injection h with h1 _
        exact absurd h1 (by simp)
      | cons a l₁ =>
        rw [List.cons_append] at h
        injection h with _ h
        cases l₁ with
        | nil =>
          rw [List.nil_append] at h
          injection h with h1 h2
          injection h1 with hc he
          exact ⟨h2.symm, by rw [he]⟩
        | cons b l₁ =>
          rw [List.cons_append] at h
          injection h with _ h
          exact absurd h.symm (by simp)
    | ok c' =>
      rw [pipeTrace_cons_ok htr] at h ⊢
      cases l₁ with
      | nil =>
        rw [List.nil_append] at h
        injection h with h1 _
        exact absurd h1 (by simp)
      | cons a l₁ =>
        rw [List.cons_append] at h
        injection h with _ h
        cases l₁ with
        | nil =>
          rw [List.nil_append] at h
          injection h with h1 _
          exact absurd h1 (by simp)
        | cons b l₁ =>
          rw [List.cons_append] at h
          injection h with _ h
          cases l₁ with
          | nil =>
            rw [List.nil_append] at h
            injection h with h1 _
            exact absurd h1 (by simp)
          | cons d l₁ =>
            rw [List.cons_append] at h
            injection h with _ h
            exact ih (k + 2) l₁ l₂ c e h

theorem pipeTrace_completed (l : List Val) (clock : Nat → Nat) :
    ∀ k : Nat, (pipeTrace l clock k).2 = RunResult.completed →
    List.Forall₂ (fun cp cc => ∃ t, UppercaseTransform.transform cp t = Except.ok cc)
      (producedChunks (pipeTrace l clock k).1)
      (consumedChunks (pipeTrace l clock k).1) ∧
    (producedChunks (pipeTrace l clock k).1).length = l.length := by
  induction l with
  | nil =>
    intro k h
    rw [pipeTrace_nil]
    simp [producedChunks, consumedChunks]
  | cons v vs ih =>
    intro k h
    cases htr : UppercaseTransform.transform (srcChunk v (clock k)) (clock (k + 1)) with
    | error e =>
      rw [pipeTrace_cons_err htr] at h
      exact absurd h (by simp)
    | ok c' =>
      rw [pipeTrace_cons_ok htr] at h ⊢
      obtain ⟨h2f, h2l⟩ := ih (k + 2) h
      constructor
      · simp only [producedChunks, consumedChunks, List.filterMap_cons] at h2f ⊢
        exact List.Forall₂.cons ⟨clock (k + 1), htr⟩ h2f
      · simp only [producedChunks, List.filterMap_cons, List.length_cons] at h2l ⊢
        omega

theorem pipeTrace_all_strings (l : List Val) (clock : Nat → Nat) :
    ∀ k : Nat, l.all Val.isStringVal = true →
    (pipeTrace l clock k).2 = RunResult.completed ∧
    (pipeTrace l clock k).1.countP Event.isTransformErr = 0 := by
  induction l with
  | nil =>
    intro k _
    rw [pipeTrace_nil]
    simp [List.countP_cons, Event.isTransformErr]
  | cons v vs ih =>
    intro k h
    rw [List.all_cons, Bool.and_eq_true] at h
    obtain ⟨us, hus⟩ : ∃ us, v = Val.vstr us := by
      cases v with
      | vstr us => exact ⟨us, rfl⟩
      | vnum z => simp [Val.isStringVal] at h
    have htr : UppercaseTransform.transform (srcChunk v (clock k)) (clock (k + 1)) =
        Except.ok { data := Val.vstr (us.map upperCodeUnit), timestamp := clock k,
                    transformedAt := some (clock (k + 1)) } := by
      have hd : (srcChunk v (clock k)).data = Val.vstr us := by rw [hus]; rfl
      rw [transform_ok_of_string hd (clock (k + 1))]
      rfl
    rw [pipeTrace_cons_ok htr]
    have hrest := ih (k + 2) h.2
    refine ⟨hrest.1, ?_⟩
    simp only [List.countP_cons, Event.isTransformErr]
    simp [hrest.2, Event.isTransformErr]

theorem blockTrace_transformOk_timestamp {tr : List Event} (h : BlockTrace tr) :
    ∀ {c₁ c₂ : Chunk}, Event.transformOk c₁ c₂ ∈ tr →
    c₂.timestamp = c₁.timestamp ∧ ∃ t, c₂.transformedAt = some t := by
  induction h with
  | eos => intro c₁ c₂ hm; simp at hm
  | err c e t he => intro c₁ c₂ hm; simp at hm
  | step c c' t tr hok htr ih =>
    intro c₁ c₂ hm
    rcases List.mem_cons.mp hm with h1 | hm
    · exact absurd h1 (by simp)
    rcases List.mem_cons.mp hm with h1 | hm
    · obtain ⟨e1, e2⟩ : c₁ = c ∧ c₂ = c' := by
        constructor <;> injection h1 <;> assumption
      subst e1
      subst e2
      obtain ⟨hfts, hfat, -⟩ := transform_ok_fields hok
      exact ⟨hfts, t, hfat⟩
    rcases List.mem_cons.mp hm with h1 | hm
    · exact absurd h1 (by simp)
    exact ih hm

theorem blockTrace_consume_timestamp {tr : List Event} (h : BlockTrace tr) :
    ∀ {cc : Chunk}, Event.sinkConsume cc ∈ tr →
    ∃ cp, Event.sourceProduce cp ∈ tr ∧ cc.timestamp = cp.timestamp := by
  induction h with
  | eos => intro cc hm; simp at hm
  | err c e t he => intro cc hm; simp at hm
  | step c c' t tr hok htr ih =>
    intro cc hm
    rcases List.mem_cons.mp hm with h1 | hm
    · exact absurd h1 (by simp)
    rcases List.mem_cons.mp hm with h1 | hm
    · exact absurd h1 (by simp)
    rcases List.mem_cons.mp hm with h1 | hm
    · have h2 : c' = cc := by injection h1 with h2; exact h2.symm
      obtain ⟨hfts, -, -⟩ := transform_ok_fields hok
      exact ⟨c, List.mem_cons_self _ _, by rw [← h2]; exact hfts⟩
    · obtain ⟨cp, hcp, hts⟩ := ih hm
      exact ⟨cp, by simp [hcp], hts⟩

theorem upperUnits_idem (xs : List Nat) :
    (xs.map upperCodeUnit).map upperCodeUnit = xs.map upperCodeUnit := by
  induction xs with
  | nil => rfl
  | cons x xs ih => simp [upperCodeUnit_idem, ih]

/-- Claim C1: the runner enforces a strict one-record-in-flight discipline with
no internal queue: in every prefix (`take n`) of every run's trace the number
of `Sink.consume` calls never exceeds the number of records produced, and at
most one produced record is not yet consumed — so for records `i < j` in
source order, record `i` completes its sink consumption before record `j` is
requested from the source. -/
theorem one_record_in_flight (s : DataSource) (clock : Nat → Nat) (k n : Nat) :
    consumeCount ((runLoop s clock k).1.take n) ≤
      produceCount ((runLoop s clock k).1.take n) ∧
    produceCount ((runLoop s clock k).1.take n) ≤
      consumeCount ((runLoop s clock k).1.take n) + 1 := by
  rw [runLoop_eq_pipeTrace]
  exact counts_take_pipeTrace _ clock k n

/-- Claim C2: fail-fast — if the transform fails on a record, the
`transformErr` event is the last event of the trace, so `Sink.consume` is
never called for that record or any later one and `Source.produce` is never
called again after the failure, and the pipeline resolves as failed carrying
the original error. -/
theorem pipeline_fail_fast (s : DataSource) (clock : Nat → Nat) (k : Nat)
    (l₁ l₂ : List Event) (c : Chunk) (e : JSError)
    (h : (runLoop s clock k).1 = l₁ ++ Event.transformErr c e :: l₂) :
    l₂ = [] ∧ (runLoop s clock k).2 = RunResult.failed e ∧
    consumeCount l₂ = 0 ∧ produceCount l₂ = 0 := by
  rw [runLoop_eq_pipeTrace] at h ⊢
  obtain ⟨h1, h2⟩ := pipeTrace_fail_fast _ clock k l₁ l₂ c e h
  subst h1
  exact ⟨rfl, h2, rfl, rfl⟩

theorem pipeline_fail_fast_witness :
    ([] : List Event) = [] ∧
    (runLoop { data := [Val.vnum 0], index := 0 } (fun n => n) 0).2 =
      RunResult.failed JSError.typeError ∧
    consumeCount [] = 0 ∧ produceCount [] = 0 :=
  pipeline_fail_fast { data := [Val.vnum 0], index := 0 } (fun n => n) 0
    [Event.sourceProduce { data := Val.vnum 0, timestamp := 0, transformedAt := none }] []
    { data := Val.vnum 0, timestamp := 0, transformedAt := none } JSError.typeError
    (by rw [runLoop_eq_pipeTrace]; rfl)

/-- Claim C3: a run that resolves successfully invokes `Sink.consume` exactly
`N` times, `N` the number of records the source had left, and the i-th
consumed chunk is the transform of the i-th produced chunk — consumption order
equals production order. -/
theorem successful_run_consumes_in_order (s : DataSource) (clock : Nat → Nat)
    (k : Nat) (h : (runLoop s clock k).2 = RunResult.completed) :
    (List.foldl DataSink.write [] (consumedChunks (runLoop s clock k).1)).length =
      s.data.length - s.index ∧
    List.Forall₂ (fun cp cc => ∃ t, UppercaseTransform.transform cp t = Except.ok cc)
      (producedChunks (runLoop s clock k).1)
      (List.foldl DataSink.write [] (consumedChunks (runLoop s clock k).1)) := by
  rw [runLoop_eq_pipeTrace] at h ⊢
  rw [foldl_write_eq]
  obtain ⟨hf, hl⟩ := pipeTrace_completed _ clock k h
  refine ⟨?_, hf⟩
  have hlen := List.Forall₂.length_eq hf
  rw [← hlen, hl, List.length_drop]

theorem successful_run_consumes_in_order_witness :
    (List.foldl DataSink.write []
      (consumedChunks (runLoop DataSource.init (fun n => n) 0).1)).length =
      DataSource.init.data.length - DataSource.init.index ∧
    List.Forall₂ (fun cp cc => ∃ t, UppercaseTransform.transform cp t = Except.ok cc)
      (producedChunks (runLoop DataSource.init (fun n => n) 0).1)
      (List.foldl DataSink.write []
        (consumedChunks (runLoop DataSource.init (fun n => n) 0).1)) :=
  successful_run_consumes_in_order DataSource.init (fun n => n) 0
    (by rw [runLoop_eq_pipeTrace]; rfl)

/-- Claim C4: on a record whose payload is a string, the transform returns a
derived record whose payload is the upper-cased input payload and which
carries a transformation timestamp; under the monotone-clock hypothesis
(`c.timestamp ≤ t`) that timestamp is ≥ the record's creation timestamp. -/
theorem transform_uppercases_and_stamps (c : Chunk) (us : List Nat) (t : Nat)
    (hd : c.data = Val.vstr us) (hclk : c.timestamp ≤ t) :
    UppercaseTransform.transform c t =
      Except.ok { data := Val.vstr (us.map upperCodeUnit), timestamp := c.timestamp,
                  transformedAt := some t } ∧
    ∀ c', UppercaseTransform.transform c t = Except.ok c' →
      ∃ ta, c'.transformedAt = some ta ∧ c.timestamp ≤ ta := by
  have h1 := transform_ok_of_string hd t
  constructor
  · rw [h1]
  · intro c' hc'
    rw [h1] at hc'
    injection hc' with hc'
    subst hc'
    exact ⟨t, rfl, hclk⟩

theorem transform_uppercases_and_stamps_witness :
    UppercaseTransform.transform
      { data := Val.vstr [97], timestamp := 3, transformedAt := none } 5 =
      Except.ok { data := Val.vstr ([97].map upperCodeUnit), timestamp := 3,
                  transformedAt := some 5 } ∧
    ∀ c', UppercaseTransform.transform
        { data := Val.vstr [97], timestamp := 3, transformedAt := none } 5 =
        Except.ok c' →
      ∃ ta, c'.transformedAt = some ta ∧ 3 ≤ ta :=
  transform_uppercases_and_stamps
    { data := Val.vstr [97], timestamp := 3, transformedAt := none } [97] 5 rfl
    (by decide)

/-- Claim C5: records are immutable once handed to the next stage — in each
stream-hook body no operation after the `push` hand-off writes the record
(checked on the operation lists of `_transform`, `_read` and `_write`), and
along every run the transform receives exactly the chunk the source pushed and
the sink consumes exactly the chunk the transform pushed (`BlockTrace`). -/
theorem no_mutation_after_forward :
    noWriteAfterForward transformBody = true ∧
    noWriteAfterForward readBody = true ∧
    noWriteAfterForward writeBody = true ∧
    ∀ (s : DataSource) (clock : Nat → Nat) (k : Nat),
      BlockTrace (runLoop s clock k).1 := by
  refine ⟨by decide, by decide, by decide, ?_⟩
  intro s clock k
  rw [runLoop_eq_pipeTrace]
  exact pipeTrace_blockTrace _ clock k

/-- Claim C6: every reachable `DataSource` state keeps `index ≤ data.length`
(`0 ≤ index` holds inherently in `Nat`), the backing list never changes, the
cursor never decreases (positions are monotonic and never reused), and every
successful `_read` advances the cursor by exactly one. -/
theorem source_cursor_invariant (s s' : DataSource)
    (h : DataSource.Reachable s s') (hinit : s.index ≤ s.data.length) :
    s'.index ≤ s'.data.length ∧ s.index ≤ s'.index ∧ s'.data = s.data ∧
    ∀ (t : Nat) (c : Chunk) (s'' : DataSource),
      DataSource.read s' t = some (c, s'') → s''.index = s'.index + 1 := by
  revert hinit
  induction h with
  | refl =>
    intro hinit
    exact ⟨hinit, Nat.le_refl _, rfl, fun t c s'' hr => (DataSource.read_some hr).2.2⟩
  | step s₁ s₂ t c h hr ih =>
    intro hinit
    obtain ⟨h1, h2, h3, -⟩ := ih hinit
    obtain ⟨hlt, hdata, hidx⟩ := DataSource.read_some hr
    refine ⟨?_, ?_, ?_, fun t' c' s₃ hr' => (DataSource.read_some hr').2.2⟩
    · rw [hdata, hidx]; omega
    · rw [hidx]; omega
    · rw [hdata, h3]

theorem source_cursor_invariant_witness :
    DataSource.init.index ≤ DataSource.init.data.length ∧
    DataSource.init.index ≤ DataSource.init.index ∧
    DataSource.init.data = DataSource.init.data ∧
    ∀ (t : Nat) (c : Chunk) (s'' : DataSource),
      DataSource.read DataSource.init t = some (c, s'') →
      s''.index = DataSource.init.index + 1 :=
  source_cursor_invariant DataSource.init DataSource.init
    (DataSource.Reachable.refl DataSource.init) (by decide)

/-- Claim C7: the payload mapping is a deterministic pure function — the
payload part of the transform result depends only on the input payload, not on
the clock or the other fields — and upper-casing is idempotent: mapping an
already-mapped payload returns it unchanged. -/
theorem mapping_deterministic_idempotent :
    (∀ (c₁ c₂ : Chunk) (t₁ t₂ : Nat), c₁.data = c₂.data →
      resultData (UppercaseTransform.transform c₁ t₁) =
        resultData (UppercaseTransform.transform c₂ t₂)) ∧
    (∀ v v' : Val, Val.toUpperCase v = Except.ok v' →
      Val.toUpperCase v' = Except.ok v') := by
  constructor
  · intro c₁ c₂ t₁ t₂ hd
    cases h1 : c₁.data with
    | vstr us =>
      have h2 : c₂.data = Val.vstr us := by rw [← hd, h1]
      rw [transform_ok_of_string h1 t₁, transform_ok_of_string h2 t₂]
      rfl
    | vnum z =>
      have h2 : c₂.data = Val.vnum z := by rw [← hd, h1]
      rw [transform_err_of_num h1 t₁, transform_err_of_num h2 t₂]
  · intro v v' hv
    cases v with
    | vstr us =>
      simp only [Val.toUpperCase, Except.ok.injEq] at hv
      subst hv
      simp only [Val.toUpperCase, Except.ok.injEq, Val.vstr.injEq]
      exact upperUnits_idem us
    | vnum z => simp [Val.toUpperCase] at hv

theorem mapping_deterministic_idempotent_witness :
    resultData (UppercaseTransform.transform
      { data := Val.vstr [97], timestamp := 0, transformedAt := none } 1) =
      resultData (UppercaseTransform.transform
        { data := Val.vstr [97], timestamp := 9, transformedAt := some 4 } 2) ∧
    Val.toUpperCase (Val.vstr [65]) = Except.ok (Val.vstr [65]) :=
  ⟨mapping_deterministic_idempotent.1
      { data := Val.vstr [97], timestamp := 0, transformedAt := none }
      { data := Val.vstr [97], timestamp := 9, transformedAt := some 4 } 1 2 rfl,
   mapping_deterministic_idempotent.2 (Val.vstr [97]) (Val.vstr [65]) rfl⟩

/-- Claim C8: a source whose backing list has length 0 yields a terminating run
that ends in the `completed` state: the first produce call signals
end-of-sequence, the runner finishes successfully, and `Sink.consume` is
called zero times. -/
theorem empty_source_completes (i : Nat) (clock : Nat → Nat) (k : Nat) :
    runLoop { data := [], index := i } clock k =
      ([Event.endOfSequence], RunResult.completed) ∧
    consumeCount (runLoop { data := [], index := i } clock k).1 = 0 := by
  have h := runLoop_eq_pipeTrace { data := [], index := i } clock k
  simp only [List.drop_nil] at h
  rw [h, pipeTrace_nil]
  exact ⟨rfl, rfl⟩

/-- Claim C9: in this program the source's backing data is exactly the five
lowercase one-character strings a–e (code units 97..101); every payload is a
string, `toUpperCase` never throws, the `callback(error)` branch of
`_transform` is unreachable (no `transformErr` event ever occurs), and every
run of the pipeline resolves successfully. -/
theorem program_run_always_succeeds :
    DataSource.init.data = [Val.vstr [97], Val.vstr [98], Val.vstr [99],
      Val.vstr [100], Val.vstr [101]] ∧
    DataSource.init.data.all Val.isStringVal = true ∧
    DataSource.init.data.all (fun v => (Val.toUpperCase v).isOk) = true ∧
    (∀ (clock : Nat → Nat) (k : Nat),
      (runLoop DataSource.init clock k).2 = RunResult.completed ∧
      (runLoop DataSource.init clock k).1.countP Event.isTransformErr = 0) ∧
    ∀ clock : Nat → Nat, (run clock).2 = RunResult.completed := by
  refine ⟨rfl, by decide, by decide, ?_, ?_⟩
  · intro clock k
    have h := pipeTrace_all_strings
      (DataSource.init.data.drop DataSource.init.index) clock k (by decide)
    rw [runLoop_eq_pipeTrace]
    exact h
  · intro clock
    have h := pipeTrace_all_strings
      (DataSource.init.data.drop DataSource.init.index) clock 0 (by decide)
    unfold run
    rw [runLoop_eq_pipeTrace]
    exact h.1

/-- Claim C10: frame condition of the transform — the only record fields it
changes are the payload `data` and the added `transformedAt` (`Chunk` has
exactly one other field, `timestamp`); the creation timestamp written by the
source is preserved verbatim, both by the transform function itself and all
the way to the chunk the sink consumes. -/
theorem transform_frame_timestamp (c : Chunk) (t : Nat) (c' : Chunk)
    (h : UppercaseTransform.transform c t = Except.ok c') :
    c'.timestamp = c.timestamp ∧
    (∀ (s : DataSource) (clock : Nat → Nat) (k : Nat) (c₁ c₂ : Chunk),
      Event.transformOk c₁ c₂ ∈ (runLoop s clock k).1 →
      c₂.timestamp = c₁.timestamp) ∧
    (∀ (s : DataSource) (clock : Nat → Nat) (k : Nat) (cc : Chunk),
      Event.sinkConsume cc ∈ (runLoop s clock k).1 →
      ∃ cp, Event.sourceProduce cp ∈ (runLoop s clock k).1 ∧
        cc.timestamp = cp.timestamp) := by
  refine ⟨(transform_ok_fields h).1, ?_, ?_⟩
  · intro s clock k c₁ c₂ hm
    rw [runLoop_eq_pipeTrace] at hm
    exact (blockTrace_transformOk_timestamp (pipeTrace_blockTrace _ clock k) hm).1
  · intro s clock k cc hm
    rw [runLoop_eq_pipeTrace] at hm ⊢
    exact blockTrace_consume_timestamp (pipeTrace_blockTrace _ clock k) hm

theorem transform_frame_timestamp_witness :
    (Chunk.mk (Val.vstr [66]) 11 (some 12)).timestamp =
      (Chunk.mk (Val.vstr [98]) 11 none).timestamp ∧
    (∀ (s : DataSource) (clock : Nat → Nat) (k : Nat) (c₁ c₂ : Chunk),
      Event.transformOk c₁ c₂ ∈ (runLoop s clock k).1 →
      c₂.timestamp = c₁.timestamp) ∧
    (∀ (s : DataSource) (clock : Nat → Nat) (k : Nat) (cc : Chunk),
      Event.sinkConsume cc ∈ (runLoop s clock k).1 →
      ∃ cp, Event.sourceProduce cp ∈ (runLoop s clock k).1 ∧
        cc.timestamp = cp.timestamp) :=
  transform_frame_timestamp (Chunk.mk (Val.vstr [98]) 11 none) 12
    (Chunk.mk (Val.vstr [66]) 11 (some 12)) rfl
